import Mathlib

/-!
# Verification of the pixel-art grid pipeline

Shallow embedding of the core of the `ozguradmin/pixelart` repository:
the background-aware quantizer (`processImageToGrid`), the RLE codec
(`generateCodeSnippet` and the decoder described by the specification),
the raster editor (`applyTool`), the viewport scaler and the tool-state
initialisation effect.  Grids are modelled exactly as in the source: flat
row-major lists of strings, where a cell is either a hex color string such
as "#ff0000" or the sentinel string "transparent".
-/

namespace PixelArt

set_option maxRecDepth 8192

/-- Embeds `rgbToHex` from `utils/pixelProcessor`:
`"#" + ((1 << 24) + (r << 16) + (g << 8) + b).toString(16).slice(1)`.
`Nat.toDigits 16` produces the same lowercase hex digit characters as the
JavaScript `toString(16)`; `slice(1)` drops the first character, which is
modelled by `List.drop 1` on the digit list (each digit is one character). -/
def rgbToHex (r g b : Nat) : String :=
  "#" ++ String.mk ((Nat.toDigits 16 (2 ^ 24 + r * 2 ^ 16 + g * 2 ^ 8 + b)).drop 1)

/-! ## RLE codec (`generateCodeSnippet` and the spec decoder) -/

/-- Embeds the palette construction of `generateCodeSnippet`:
`Array.from(new Set(grid.filter(c => c !== "transparent")))`.
A JavaScript `Set` keeps first-occurrence insertion order, which the fold
reproduces: an element already present is skipped, a new one is appended. -/
def palette (grid : List String) : List String :=
  (grid.filter (fun c => c ≠ "transparent")).foldl
    (fun acc c => if c ∈ acc then acc else acc ++ [c]) []

/-- Embeds the index mapping of `generateCodeSnippet`:
`grid.map(color => color === "transparent" ? -1 : palette.indexOf(color))`.
For the palette built from the same grid every non-transparent color is
found, so the not-found behaviour of `indexOf` is never reached. -/
def toIndex (pal : List String) (c : String) : Int :=
  if c = "transparent" then -1 else (pal.indexOf c : Int)

/-- The raw palette-index sequence of a grid, step 2 of `generateCodeSnippet`. -/
def rawIndices (pal : List String) (grid : List String) : List Int :=
  grid.map (toIndex pal)

/-- Embeds the RLE loop of `generateCodeSnippet`: the state `(currentVal,
currentCount)` is the run in progress, `rest` the unscanned input; when the
value changes (or input ends) the pair is pushed onto the output. -/
def rleLoop : List Int → Int → Nat → List Int
  | [], currentVal, currentCount => [currentVal, (currentCount : Int)]
  | v :: rest, currentVal, currentCount =>
      if v = currentVal then rleLoop rest currentVal (currentCount + 1)
      else currentVal :: (currentCount : Int) :: rleLoop rest v 1

/-- Embeds step 3 of `generateCodeSnippet`: the `[value, count, ...]` stream,
empty for an empty index sequence (`rawIndices.length > 0` guard). -/
def rleEncode : List Int → List Int
  | [] => []
  | v :: rest => rleLoop rest v 1

/-- The content of the JSON object produced by `generateCodeSnippet`
(the constant format tag "RLE (Value, Count)" is omitted). -/
structure RLERecord where
  width : Nat
  height : Nat
  pal : List String
  data : List Int
deriving DecidableEq

/-- Embeds `generateCodeSnippet(grid, size)` from `utils/pixelProcessor`,
returning the record whose JSON serialisation the source emits. -/
def generateCodeSnippet (grid : List String) (size : Nat) : RLERecord :=
  { width := size
    height := size
    pal := palette grid
    data := rleEncode (rawIndices (palette grid) grid) }

/-- Modelled from the spec: the repository contains no decoder, only the
specification describes one.  Expansion step: "expand each `(value, count)`
pair by repeating `value` `count` times"; a trailing unpaired value makes
the record invalid. -/
def rleExpand : List Int → Option (List Int)
  | [] => some []
  | [_] => none
  | v :: c :: rest =>
      match rleExpand rest with
      | some tail => some (List.replicate c.toNat v ++ tail)
      | none => none

/-- Modelled from the spec: "translate non-sentinel indices back through the
palette, sentinel back to Transparent"; a palette index out of range (which
includes any negative value other than the sentinel `-1`) rejects the record. -/
def translateIndices (pal : List String) : List Int → Option (List String)
  | [] => some []
  | v :: rest =>
      match (if v = -1 then some "transparent"
             else if 0 ≤ v then pal[v.toNat]? else none),
            translateIndices pal rest with
      | some c, some tail => some (c :: tail)
      | _, _ => none

/-- Modelled from the spec: the decoder — expand the run stream, translate
indices through the palette, and reject the record unless the reconstructed
length equals `width × height` exactly. -/
def decode (r : RLERecord) : Option (List String) :=
  (rleExpand r.data).bind fun idxs =>
    (translateIndices r.pal idxs).bind fun cells =>
      if cells.length = r.width * r.height then some cells else none

/-! ### Round-trip lemmas -/

theorem rleExpand_rleLoop (rest : List Int) (v : Int) (c : Nat) :
    rleExpand (rleLoop rest v c) = some (List.replicate c v ++ rest) := by
  induction rest generalizing v c with
  | nil => simp [rleLoop, rleExpand]
  | cons w ws ih =>
      by_cases hw : w = v
      · subst hw
        rw [rleLoop, if_pos rfl, ih, List.replicate_succ', List.append_assoc,
          List.singleton_append]
      · rw [rleLoop, if_neg hw, rleExpand, ih]
        simp

theorem rleExpand_rleEncode (l : List Int) : rleExpand (rleEncode l) = some l := by
  cases l with
  | nil => rfl
  | cons v rest => rw [rleEncode, rleExpand_rleLoop]; simp

theorem mem_foldl_insert (l : List String) (acc : List String) (a : String)
    (h : a ∈ acc ∨ a ∈ l) :
    a ∈ l.foldl (fun acc c => if c ∈ acc then acc else acc ++ [c]) acc := by
  induction l generalizing acc with
  | nil => simpa using h
  | cons c cs ih =>
      rw [List.foldl_cons]
      apply ih
      rcases h with hacc | hmem
      · left
        by_cases hc : c ∈ acc
        · rwa [if_pos hc]
        · rw [if_neg hc]; exact List.mem_append_left _ hacc
      · rcases List.mem_cons.mp hmem with rfl | htail
        · left
          by_cases hc : a ∈ acc
          · rwa [if_pos hc]
          · rw [if_neg hc]; exact List.mem_append_right _ (List.mem_singleton.mpr rfl)
        · right; exact htail

theorem mem_palette (grid : List String) (c : String)
    (hc : c ∈ grid) (hne : c ≠ "transparent") : c ∈ palette grid := by
  apply mem_foldl_insert
  right
  exact List.mem_filter.mpr ⟨hc, by simpa using hne⟩

theorem translate_toIndex (pal : List String) (c : String)
    (h : c = "transparent" ∨ c ∈ pal) :
    (if toIndex pal c = -1 then some "transparent"
     else if 0 ≤ toIndex pal c then pal[(toIndex pal c).toNat]? else none) = some c := by
  by_cases hne : c = "transparent"
  · subst hne
    simp [toIndex]
  · have hmem : c ∈ pal := h.resolve_left hne
    have hlt : pal.indexOf c < pal.length := List.indexOf_lt_length.mpr hmem
    rw [toIndex, if_neg hne]
    have h1 : ((pal.indexOf c : Int)) ≠ -1 := by omega
    have h2 : (0 : Int) ≤ (pal.indexOf c : Int) := by omega
    rw [if_neg h1, if_pos h2, Int.toNat_natCast,
      List.getElem?_eq_getElem hlt, List.getElem_indexOf hlt]

theorem translateIndices_rawIndices (pal : List String) (grid : List String)
    (h : ∀ c ∈ grid, c = "transparent" ∨ c ∈ pal) :
    translateIndices pal (rawIndices pal grid) = some grid := by
  induction grid with
  | nil => rfl
  | cons c g ih =>
      have hc := h c (List.mem_cons_self c g)
      have hg : ∀ d ∈ g, d = "transparent" ∨ d ∈ pal := fun d hd =>
        h d (List.mem_cons_of_mem _ hd)
      have htail := ih hg
      rw [rawIndices] at htail ⊢
      rw [List.map_cons, translateIndices, translate_toIndex pal c hc, htail]

/-- C1: Round-trip law of the RLE codec — decoding the record produced by
`generateCodeSnippet` on any grid of length `size * size` reconstructs the
grid exactly. -/
theorem decode_generateCodeSnippet (grid : List String) (size : Nat)
    (h : grid.length = size * size) :
    decode (generateCodeSnippet grid size) = some grid := by
  have hpal : ∀ c ∈ grid, c = "transparent" ∨ c ∈ palette grid := fun c hc => by
    by_cases hne : c = "transparent"
    · exact Or.inl hne
    · exact Or.inr (mem_palette grid c hc hne)
  have hT := translateIndices_rawIndices (palette grid) grid hpal
  simp only [decode, generateCodeSnippet, rleExpand_rleEncode, Option.some_bind, hT]
  rw [if_pos h]

/-- Witness for C1: the round-trip law at a concrete 2×2 grid. -/
theorem decode_generateCodeSnippet_witness :
    decode (generateCodeSnippet ["#ff0000", "transparent", "transparent", "#00ff00"] 2) =
      some ["#ff0000", "transparent", "transparent", "#00ff00"] :=
  decode_generateCodeSnippet ["#ff0000", "transparent", "transparent", "#00ff00"] 2 rfl

/-! ## Concrete 32×32 scenario -/

/-- The 32×32 grid that is all transparent except cell `(0, 0) = "#ff0000"`
(row-major, so cell `(0, 0)` is index 0). -/
def demoGrid : List String := "#ff0000" :: List.replicate 1023 "transparent"

theorem translateIndices_replicate_sentinel (pal : List String) (n : Nat) :
    translateIndices pal (List.replicate n (-1)) =
      some (List.replicate n "transparent") := by
  induction n with
  | zero => rfl
  | succ m ih =>
      rw [List.replicate_succ, translateIndices, ih, List.replicate_succ]
      norm_num

theorem rleExpand_demo :
    rleExpand [0, 1, -1, 1023] = some (0 :: List.replicate 1023 (-1)) := by
  have h0 : rleExpand ([] : List Int) = some [] := rfl
  have h1 : ((1 : Int)).toNat = 1 := rfl
  have h2 : ((1023 : Int)).toNat = 1023 := rfl
  rw [rleExpand, rleExpand, h0, h1, h2]
  norm_num

/-- C6: Concrete RLE scenario — `generateCodeSnippet` on `demoGrid` yields
palette `["#ff0000"]` and data `[0, 1, -1, 1023]`, and decoding that record
reproduces `demoGrid` exactly. -/
theorem demoGrid_scenario :
    generateCodeSnippet demoGrid 32 =
      { width := 32, height := 32, pal := ["#ff0000"], data := [0, 1, -1, 1023] } ∧
    decode { width := 32, height := 32, pal := ["#ff0000"], data := [0, 1, -1, 1023] } =
      some demoGrid := by
  constructor
  · decide
  · have htr : translateIndices ["#ff0000"] (0 :: List.replicate 1023 (-1)) =
        some demoGrid := by
      rw [translateIndices, translateIndices_replicate_sentinel, demoGrid]
      norm_num
    rw [decode]
    simp only [rleExpand_demo, Option.some_bind, htr]
    rw [if_pos (by rw [demoGrid]; simp)]

/-! ## Background-aware quantizer (`processImageToGrid`) -/

/-- One pixel of the bitmap after resampling to `size × size`: the four
channel bytes read from the canvas image data, each in `0..255`. -/
structure Pixel where
  r : Nat
  g : Nat
  b : Nat
  a : Nat
deriving DecidableEq

/-- Squared Euclidean RGB distance between a pixel and the background
reference.  The source compares `Math.sqrt(distSq) < 60`; on integer channel
values `Math.sqrt` is exactly rounded and `60 * 60 = 3600` is exactly
representable, so that comparison holds precisely when `distSq < 3600`. -/
def distSq (p bg : Pixel) : Int :=
  ((p.r : Int) - (bg.r : Int)) ^ 2 + ((p.g : Int) - (bg.g : Int)) ^ 2 +
    ((p.b : Int) - (bg.b : Int)) ^ 2

/-- Classification of one pixel against the background reference, from the
loop body of `processImageToGrid`: transparent when the source alpha is below
50 or the pixel lies within distance 60 of the background; otherwise the RGB
value is emitted as an opaque hex color. -/
def quantizePixel (bg : Pixel) (p : Pixel) : String :=
  if p.a < 50 ∨ distSq p bg < 3600 then "transparent" else rgbToHex p.r p.g p.b

/-- Embeds `processImageToGrid` after resampling: the background reference is
the pixel at grid index 0 and every pixel of the resampled bitmap is
classified against it.  An empty pixel sequence yields an empty grid, as the
source loop never runs on it. -/
def processImageToGrid (pixels : List Pixel) : List String :=
  match pixels with
  | [] => []
  | bg :: _ => pixels.map (quantizePixel bg)

theorem rgbToHex_ne_transparent (r g b : Nat) : rgbToHex r g b ≠ "transparent" := by
  intro h
  have hd := congrArg String.data h
  rw [rgbToHex, String.data_append] at hd
  have h1 : "#".data = ['#'] := rfl
  have h2 : "transparent".data = ['t', 'r', 'a', 'n', 's', 'p', 'a', 'r', 'e', 'n', 't'] := rfl
  rw [h1, h2] at hd
  simp at hd

theorem sqrt_lt_sixty (d : Int) : Real.sqrt ((d : Int) : ℝ) < 60 ↔ d < 3600 := by
  rw [Real.sqrt_lt' (by norm_num : (0 : ℝ) < 60)]
  constructor
  · intro h
    exact_mod_cast (by exact_mod_cast h : ((d : Int) : ℝ) < ((3600 : Int) : ℝ))
  · intro h
    have : ((d : Int) : ℝ) < ((3600 : Int) : ℝ) := by exact_mod_cast h
    calc ((d : Int) : ℝ) < ((3600 : Int) : ℝ) := this
      _ = 60 ^ 2 := by norm_num

/-- C2: Quantizer classification — with the background reference read from
grid index 0 of the resampled bitmap, an output cell is transparent exactly
when its source alpha is below 50 or its Euclidean RGB distance to the
reference is below 60; otherwise the cell is the pixel RGB as an opaque hex
color. -/
theorem quantizer_classification (bg : Pixel) (rest : List Pixel) (i : Nat)
    (hi : i < (bg :: rest).length) :
    ((processImageToGrid (bg :: rest)).getD i "" = "transparent" ↔
      ((bg :: rest).getD i bg).a < 50 ∨
        Real.sqrt ((distSq ((bg :: rest).getD i bg) bg : Int) : ℝ) < 60) ∧
    ((processImageToGrid (bg :: rest)).getD i "" ≠ "transparent" →
      (processImageToGrid (bg :: rest)).getD i "" =
        rgbToHex ((bg :: rest).getD i bg).r ((bg :: rest).getD i bg).g
          ((bg :: rest).getD i bg).b) := by
  have hmap : (processImageToGrid (bg :: rest)).length = (bg :: rest).length := by
    rw [processImageToGrid, List.length_map]
  have hval : (processImageToGrid (bg :: rest)).getD i "" =
      quantizePixel bg ((bg :: rest).getD i bg) := by
    have hm : i < ((bg :: rest).map (quantizePixel bg)).length := by
      rw [List.length_map]; exact hi
    show ((bg :: rest).map (quantizePixel bg)).getD i "" = _
    rw [List.getD_eq_getElem _ _ hm, List.getD_eq_getElem _ _ hi, List.getElem_map]
  rw [hval, sqrt_lt_sixty]
  by_cases hcond : ((bg :: rest).getD i bg).a < 50 ∨ distSq ((bg :: rest).getD i bg) bg < 3600
  · rw [quantizePixel, if_pos hcond]
    exact ⟨⟨fun _ => hcond, fun _ => rfl⟩, fun h => absurd rfl h⟩
  · rw [quantizePixel, if_neg hcond]
    refine ⟨⟨fun h => absurd h (rgbToHex_ne_transparent _ _ _), fun h => absurd h hcond⟩,
      fun _ => rfl⟩

/-- Witness for C2: the classification at a concrete two-pixel bitmap whose
second pixel is opaque and far from the black background. -/
theorem quantizer_classification_witness :
    ((processImageToGrid [⟨0, 0, 0, 255⟩, ⟨200, 10, 10, 255⟩]).getD 1 "" = "transparent" ↔
      (([⟨0, 0, 0, 255⟩, ⟨200, 10, 10, 255⟩] : List Pixel).getD 1 ⟨0, 0, 0, 255⟩).a < 50 ∨
        Real.sqrt ((distSq (([⟨0, 0, 0, 255⟩, ⟨200, 10, 10, 255⟩] : List Pixel).getD 1
          ⟨0, 0, 0, 255⟩) ⟨0, 0, 0, 255⟩ : Int) : ℝ) < 60) ∧
    ((processImageToGrid [⟨0, 0, 0, 255⟩, ⟨200, 10, 10, 255⟩]).getD 1 "" ≠ "transparent" →
      (processImageToGrid [⟨0, 0, 0, 255⟩, ⟨200, 10, 10, 255⟩]).getD 1 "" =
        rgbToHex (([⟨0, 0, 0, 255⟩, ⟨200, 10, 10, 255⟩] : List Pixel).getD 1
            ⟨0, 0, 0, 255⟩).r
          (([⟨0, 0, 0, 255⟩, ⟨200, 10, 10, 255⟩] : List Pixel).getD 1 ⟨0, 0, 0, 255⟩).g
          (([⟨0, 0, 0, 255⟩, ⟨200, 10, 10, 255⟩] : List Pixel).getD 1 ⟨0, 0, 0, 255⟩).b) :=
  quantizer_classification ⟨0, 0, 0, 255⟩ [⟨200, 10, 10, 255⟩] 1 (by decide)

/-- C9: The cell at grid index 0 — the top-left corner used as the background
reference — is always transparent in a successfully quantized bitmap, since
its distance to the reference is 0, below the threshold. -/
theorem corner_cell_transparent (bg : Pixel) (rest : List Pixel) :
    (processImageToGrid (bg :: rest)).getD 0 "" = "transparent" := by
  rw [processImageToGrid, List.map_cons]
  simp [quantizePixel, distSq]

/-! ## Raster editor (`applyTool` in `CanvasPreview`) -/

/-- The tool enumeration of `CanvasPreview` (`ToolType`); the idle value
"none" of the source is called `noTool` here. -/
inductive ToolType
  | pencil
  | eraser
  | magicEraser
  | noTool
deriving DecidableEq

/-- The tool-related component state of `CanvasPreview`: `activeTool`,
`brushSize` and `drawColor`. -/
structure ToolState where
  activeTool : ToolType
  brushSize : Nat
  drawColor : String
deriving DecidableEq

/-- The brush footprint coordinates visited by the pencil/eraser loops:
`halfBrush = Math.floor(brushSize / 2)`, `startX = x - halfBrush`, and the
loops run `py` from `startY` (outer) and `px` from `startX` (inner), each
for `brushSize` steps. -/
def brushCoords (brushSize : Nat) (x y : Int) : List (Int × Int) :=
  (List.range brushSize).flatMap fun (dy : Nat) =>
    (List.range brushSize).map fun (dx : Nat) =>
      (x - (brushSize / 2 : Nat) + (dx : Int), y - (brushSize / 2 : Nat) + (dy : Int))

/-- The body of the pencil/eraser double loop: a coordinate inside the grid
bounds whose cell differs from `newColor` is overwritten and the change flag
set; all other coordinates leave the accumulator untouched.  The `getD`
default stands for the out-of-range read of a JavaScript array; it is never
reached on a grid of length `size * size`. -/
def writeBrushCell (size : Nat) (newColor : String)
    (acc : List String × Bool) (p : Int × Int) : List String × Bool :=
  if 0 ≤ p.1 ∧ p.1 < (size : Int) ∧ 0 ≤ p.2 ∧ p.2 < (size : Int) then
    if acc.1.getD (p.2 * (size : Int) + p.1).toNat "" ≠ newColor then
      (acc.1.set (p.2 * (size : Int) + p.1).toNat newColor, true)
    else acc
  else acc

/-- The pencil/eraser branch of `applyTool`: fold the loop body over the
brush footprint, starting from the copied grid and `hasChanged = false`. -/
def applyBrush (size : Nat) (grid : List String) (newColor : String)
    (brushSize : Nat) (x y : Int) : List String × Bool :=
  (brushCoords brushSize x y).foldl (writeBrushCell size newColor) (grid, false)

/-- Embeds `applyTool(x, y)` of `CanvasPreview`.  The result is `some` of the
new grid passed to `onGridUpdate` when `hasChanged` holds, and `none` when
the call performs no update (out-of-bounds anchor, magic eraser on a
transparent cell, or a brush application that changes nothing).  The magic
eraser branch scans every cell once and replaces the ones equal to the
target color, which the `map` reproduces; `grid.getD index ""` stands for
`grid[index]`, in range on a grid of length `size * size` whenever the
bounds check has passed. -/
def applyTool (size : Nat) (grid : List String) (ts : ToolState) (x y : Int) :
    Option (List String) :=
  if x < 0 ∨ (size : Int) ≤ x ∨ y < 0 ∨ (size : Int) ≤ y then none
  else if ts.activeTool = ToolType.magicEraser then
    if grid.getD (y * (size : Int) + x).toNat "" ≠ "transparent" then
      some (grid.map fun c =>
        if c = grid.getD (y * (size : Int) + x).toNat "" then "transparent" else c)
    else none
  else
    if (applyBrush size grid
        (if ts.activeTool = ToolType.pencil then ts.drawColor else "transparent")
        ts.brushSize x y).2 then
      some (applyBrush size grid
        (if ts.activeTool = ToolType.pencil then ts.drawColor else "transparent")
        ts.brushSize x y).1
    else none

/-! ### Magic eraser -/

/-- C3: Magic eraser — at an in-bounds cell whose color is not transparent,
`applyTool` returns in one step a grid in which every cell that held that
color is transparent and every other cell is unchanged; at a transparent
target cell the call is a no-op. -/
theorem magicEraser_totality (size : Nat) (grid : List String) (ts : ToolState)
    (x y : Int) (hts : ts.activeTool = ToolType.magicEraser)
    (hx0 : 0 ≤ x) (hx : x < (size : Int)) (hy0 : 0 ≤ y) (hy : y < (size : Int)) :
    (grid.getD (y * (size : Int) + x).toNat "" ≠ "transparent" →
      ∃ g, applyTool size grid ts x y = some g ∧ g.length = grid.length ∧
        ∀ i, i < grid.length →
          (grid.getD i "" = grid.getD (y * (size : Int) + x).toNat "" →
            g.getD i "" = "transparent") ∧
          (grid.getD i "" ≠ grid.getD (y * (size : Int) + x).toNat "" →
            g.getD i "" = grid.getD i "")) ∧
    (grid.getD (y * (size : Int) + x).toNat "" = "transparent" →
      applyTool size grid ts x y = none) := by
  have hnb : ¬(x < 0 ∨ (size : Int) ≤ x ∨ y < 0 ∨ (size : Int) ≤ y) := by omega
  constructor
  · intro hC
    refine ⟨grid.map fun c =>
      if c = grid.getD (y * (size : Int) + x).toNat "" then "transparent" else c,
      ?_, ?_, ?_⟩
    · rw [applyTool, if_neg hnb, hts, if_pos rfl, if_pos hC]
    · rw [List.length_map]
    · intro i hi
      have hi2 : i < (grid.map fun c =>
          if c = grid.getD (y * (size : Int) + x).toNat "" then "transparent"
          else c).length := by
        rw [List.length_map]; exact hi
      rw [List.getD_eq_getElem _ _ hi2, List.getD_eq_getElem _ _ hi, List.getElem_map]
      constructor
      · intro hEq
        rw [if_pos hEq]
      · intro hNe
        rw [if_neg hNe]
  · intro hC
    rw [applyTool, if_neg hnb, hts, if_pos rfl, if_neg (not_not_intro hC)]

/-- Witness for C3: the magic eraser at cell `(0, 0)` of a concrete 2×2 grid. -/
theorem magicEraser_totality_witness :
    ((["#aa0000", "#bb0000", "#aa0000", "transparent"].getD
        ((0 : Int) * ((2 : Nat) : Int) + 0).toNat "" ≠ "transparent" →
      ∃ g, applyTool 2 ["#aa0000", "#bb0000", "#aa0000", "transparent"]
          ⟨ToolType.magicEraser, 1, "#ffffff"⟩ 0 0 = some g ∧
        g.length = (["#aa0000", "#bb0000", "#aa0000", "transparent"] : List String).length ∧
        ∀ i, i < (["#aa0000", "#bb0000", "#aa0000", "transparent"] : List String).length →
          ((["#aa0000", "#bb0000", "#aa0000", "transparent"] : List String).getD i "" =
              ["#aa0000", "#bb0000", "#aa0000", "transparent"].getD
                ((0 : Int) * ((2 : Nat) : Int) + 0).toNat "" →
            g.getD i "" = "transparent") ∧
          ((["#aa0000", "#bb0000", "#aa0000", "transparent"] : List String).getD i "" ≠
              ["#aa0000", "#bb0000", "#aa0000", "transparent"].getD
                ((0 : Int) * ((2 : Nat) : Int) + 0).toNat "" →
            g.getD i "" =
              (["#aa0000", "#bb0000", "#aa0000", "transparent"] : List String).getD i "")) ∧
    (["#aa0000", "#bb0000", "#aa0000", "transparent"].getD
        ((0 : Int) * ((2 : Nat) : Int) + 0).toNat "" = "transparent" →
      applyTool 2 ["#aa0000", "#bb0000", "#aa0000", "transparent"]
        ⟨ToolType.magicEraser, 1, "#ffffff"⟩ 0 0 = none)) :=
  magicEraser_totality 2 ["#aa0000", "#bb0000", "#aa0000", "transparent"]
    ⟨ToolType.magicEraser, 1, "#ffffff"⟩ 0 0 rfl (by decide) (by decide) (by decide)
    (by decide)

/-- C10: Noninterference — the effect of the magic eraser depends only on the
grid and the target cell, never on the brush size or the draw color. -/
theorem magicEraser_noninterference (size : Nat) (grid : List String) (x y : Int)
    (t1 t2 : ToolState) (h1 : t1.activeTool = ToolType.magicEraser)
    (h2 : t2.activeTool = ToolType.magicEraser) :
    applyTool size grid t1 x y = applyTool size grid t2 x y := by
  simp [applyTool, h1, h2]

/-- Witness for C10: two magic-eraser tool states with different brush sizes
and draw colors act identically on a concrete grid. -/
theorem magicEraser_noninterference_witness :
    applyTool 2 ["#aa0000", "transparent", "#aa0000", "#bb0000"]
        ⟨ToolType.magicEraser, 1, "#ffffff"⟩ 0 0 =
      applyTool 2 ["#aa0000", "transparent", "#aa0000", "#bb0000"]
        ⟨ToolType.magicEraser, 5, "#00ff00"⟩ 0 0 :=
  magicEraser_noninterference 2 ["#aa0000", "transparent", "#aa0000", "#bb0000"] 0 0
    ⟨ToolType.magicEraser, 1, "#ffffff"⟩ ⟨ToolType.magicEraser, 5, "#00ff00"⟩ rfl rfl

/-! ### Brush geometry lemmas -/

theorem wb_length (size : Nat) (c : String) (acc : List String × Bool) (p : Int × Int) :
    ((writeBrushCell size c acc p).1).length = acc.1.length := by
  rw [writeBrushCell]
  split
  · split
    · exact List.length_set acc.1 _ c
    · rfl
  · rfl

theorem foldl_wb_length (size : Nat) (c : String) (coords : List (Int × Int)) :
    ∀ (g : List String) (b : Bool),
      ((coords.foldl (writeBrushCell size c) (g, b)).1).length = g.length := by
  induction coords with
  | nil => intro g b; rfl
  | cons p ps ih =>
      intro g b
      rw [List.foldl_cons]
      have h := ih (writeBrushCell size c (g, b) p).1 (writeBrushCell size c (g, b) p).2
      rw [wb_length] at h
      exact h

theorem wb_getD_or (size : Nat) (c : String) (acc : List String × Bool) (p : Int × Int)
    (j : Nat) :
    ((writeBrushCell size c acc p).1).getD j "" = acc.1.getD j "" ∨
      ((writeBrushCell size c acc p).1).getD j "" = c := by
  rw [writeBrushCell]
  split
  · split
    · by_cases hj : (p.2 * (size : Int) + p.1).toNat = j
      · by_cases hlt : (p.2 * (size : Int) + p.1).toNat < acc.1.length
        · right
          rw [List.getD_eq_getElem?_getD, List.getElem?_set, if_pos hj, if_pos hlt]
          rfl
        · left
          rw [List.getD_eq_getElem?_getD, List.getElem?_set, if_pos hj, if_neg hlt,
            List.getD_eq_getElem?_getD]
          have hnone : acc.1[j]? = none := List.getElem?_eq_none (by omega)
          rw [hnone]
      · left
        rw [List.getD_eq_getElem?_getD, List.getElem?_set, if_neg hj,
          List.getD_eq_getElem?_getD]
    · left; rfl
  · left; rfl

theorem foldl_wb_preserve (size : Nat) (c : String) (coords : List (Int × Int)) (j : Nat) :
    ∀ (g : List String) (b : Bool), g.getD j "" = c →
      ((coords.foldl (writeBrushCell size c) (g, b)).1).getD j "" = c := by
  induction coords with
  | nil => intro g b h; exact h
  | cons p ps ih =>
      intro g b h
      rw [List.foldl_cons]
      have hstep : ((writeBrushCell size c (g, b) p).1).getD j "" = c := by
        rcases wb_getD_or size c (g, b) p j with hsame | hc
        · rw [hsame]; exact h
        · exact hc
      exact ih (writeBrushCell size c (g, b) p).1 (writeBrushCell size c (g, b) p).2 hstep

theorem wb_getD_ne (size : Nat) (c : String) (acc : List String × Bool) (p : Int × Int)
    (j : Nat)
    (h : (0 ≤ p.1 ∧ p.1 < (size : Int) ∧ 0 ≤ p.2 ∧ p.2 < (size : Int)) →
      (p.2 * (size : Int) + p.1).toNat ≠ j) :
    ((writeBrushCell size c acc p).1).getD j "" = acc.1.getD j "" := by
  rw [writeBrushCell]
  split
  · next hin =>
      split
      · rw [List.getD_eq_getElem?_getD, List.getElem?_set, if_neg (h hin),
          List.getD_eq_getElem?_getD]
      · rfl
  · rfl

theorem foldl_wb_unchanged (size : Nat) (c : String) (coords : List (Int × Int)) (j : Nat)
    (h : ∀ p ∈ coords, (0 ≤ p.1 ∧ p.1 < (size : Int) ∧ 0 ≤ p.2 ∧ p.2 < (size : Int)) →
      (p.2 * (size : Int) + p.1).toNat ≠ j) :
    ∀ (g : List String) (b : Bool),
      ((coords.foldl (writeBrushCell size c) (g, b)).1).getD j "" = g.getD j "" := by
  induction coords with
  | nil => intro g b; rfl
  | cons p ps ih =>
      intro g b
      rw [List.foldl_cons]
      have hstep := wb_getD_ne size c (g, b) p j (h p (List.mem_cons_self p ps))
      have htail := ih (fun q hq => h q (List.mem_cons_of_mem _ hq))
        (writeBrushCell size c (g, b) p).1 (writeBrushCell size c (g, b) p).2
      rw [htail, hstep]

theorem foldl_wb_written (size : Nat) (c : String) (p : Int × Int)
    (hin : 0 ≤ p.1 ∧ p.1 < (size : Int) ∧ 0 ≤ p.2 ∧ p.2 < (size : Int))
    (coords : List (Int × Int)) :
    ∀ (g : List String) (b : Bool), p ∈ coords →
      (p.2 * (size : Int) + p.1).toNat < g.length →
      ((coords.foldl (writeBrushCell size c) (g, b)).1).getD
        ((p.2 * (size : Int) + p.1).toNat) "" = c := by
  induction coords with
  | nil => intro g b hp _; cases hp
  | cons q qs ih =>
      intro g b hp hlt
      rw [List.foldl_cons]
      rcases List.mem_cons.mp hp with hq | hmem
      · have hwb : ((writeBrushCell size c (g, b) q).1).getD
            ((p.2 * (size : Int) + p.1).toNat) "" = c := by
          rw [← hq, writeBrushCell, if_pos hin]
          split
          · rw [List.getD_eq_getElem?_getD, List.getElem?_set, if_pos rfl, if_pos hlt]
            rfl
          · next hne =>
              have := not_not.mp hne
              rw [List.getD_eq_getElem?_getD] at this ⊢
              exact this
        exact foldl_wb_preserve size c qs _ (writeBrushCell size c (g, b) q).1
          (writeBrushCell size c (g, b) q).2 hwb
      · exact ih (writeBrushCell size c (g, b) q).1 (writeBrushCell size c (g, b) q).2 hmem
          (by rw [wb_length]; exact hlt)

theorem foldl_wb_noop (size : Nat) (c : String) (coords : List (Int × Int)) :
    ∀ (g : List String) (b : Bool),
      (∀ p ∈ coords, (0 ≤ p.1 ∧ p.1 < (size : Int) ∧ 0 ≤ p.2 ∧ p.2 < (size : Int)) →
        g.getD ((p.2 * (size : Int) + p.1).toNat) "" = c) →
      coords.foldl (writeBrushCell size c) (g, b) = (g, b) := by
  induction coords with
  | nil => intro g b _; rfl
  | cons p ps ih =>
      intro g b h
      rw [List.foldl_cons]
      have hstep : writeBrushCell size c (g, b) p = (g, b) := by
        rw [writeBrushCell]
        split
        · next hin =>
            rw [if_neg (not_not_intro (h p (List.mem_cons_self p ps) hin))]
        · rfl
      rw [hstep]
      exact ih g b fun q hq hinq => h q (List.mem_cons_of_mem _ hq) hinq

theorem foldl_wb_flag_true (size : Nat) (c : String) (coords : List (Int × Int)) :
    ∀ (g : List String),
      (coords.foldl (writeBrushCell size c) (g, true)).2 = true := by
  induction coords with
  | nil => intro g; rfl
  | cons p ps ih =>
      intro g
      rw [List.foldl_cons, writeBrushCell]
      split
      · split
        · exact ih _
        · exact ih g
      · exact ih g

theorem foldl_wb_false (size : Nat) (c : String) (coords : List (Int × Int)) :
    ∀ (g : List String),
      (coords.foldl (writeBrushCell size c) (g, false)).2 = false →
      (coords.foldl (writeBrushCell size c) (g, false)).1 = g := by
  induction coords with
  | nil => intro g _; rfl
  | cons p ps ih =>
      intro g h
      rw [List.foldl_cons] at h ⊢
      by_cases hin : 0 ≤ p.1 ∧ p.1 < (size : Int) ∧ 0 ≤ p.2 ∧ p.2 < (size : Int)
      · by_cases hne : g.getD ((p.2 * (size : Int) + p.1).toNat) "" ≠ c
        · exfalso
          have hstep : writeBrushCell size c (g, false) p =
              (g.set ((p.2 * (size : Int) + p.1).toNat) c, true) := by
            rw [writeBrushCell, if_pos hin, if_pos hne]
          rw [hstep, foldl_wb_flag_true] at h
          cases h
        · have hstep : writeBrushCell size c (g, false) p = (g, false) := by
            rw [writeBrushCell, if_pos hin, if_neg hne]
          rw [hstep] at h ⊢
          exact ih g h
      · have hstep : writeBrushCell size c (g, false) p = (g, false) := by
          rw [writeBrushCell, if_neg hin]
        rw [hstep] at h ⊢
        exact ih g h

theorem rowMajor_inj (size : Nat) (a b2 c d : Int)
    (ha : 0 ≤ a) (ha2 : a < (size : Int)) (hc : 0 ≤ c) (hc2 : c < (size : Int))
    (h : b2 * (size : Int) + a = d * (size : Int) + c) : a = c ∧ b2 = d := by
  have hs : (0 : Int) < (size : Int) := by omega
  have hmod : a = c := by
    have h1 : (a + (size : Int) * b2) % (size : Int) = a % (size : Int) :=
      Int.add_mul_emod_self_left a (size : Int) b2
    have h2 : (c + (size : Int) * d) % (size : Int) = c % (size : Int) :=
      Int.add_mul_emod_self_left c (size : Int) d
    have h3 : a + (size : Int) * b2 = c + (size : Int) * d := by
      rw [mul_comm (size : Int) b2, mul_comm (size : Int) d]
      omega
    rw [h3, h2] at h1
    rw [Int.emod_eq_of_lt hc hc2, Int.emod_eq_of_lt ha ha2] at h1
    omega
  refine ⟨hmod, ?_⟩
  have : b2 * (size : Int) = d * (size : Int) := by omega
  exact mul_right_cancel₀ (by omega) this

theorem mem_brushCoords (brushSize : Nat) (x y : Int) (p : Int × Int) :
    p ∈ brushCoords brushSize x y ↔
      ∃ dy dx : Nat, dy < brushSize ∧ dx < brushSize ∧
        p.1 = x - (brushSize / 2 : Nat) + dx ∧ p.2 = y - (brushSize / 2 : Nat) + dy := by
  rw [brushCoords]
  simp only [List.mem_flatMap, List.mem_map, List.mem_range]
  constructor
  · rintro ⟨dy, hdy, dx, hdx, hpe⟩
    exact ⟨dy, dx, hdy, hdx, by rw [← hpe], by rw [← hpe]⟩
  · rintro ⟨dy, dx, hdy, hdx, h1, h2⟩
    exact ⟨dy, hdy, dx, hdx, by rw [Prod.ext_iff]; exact ⟨h1.symm, h2.symm⟩⟩

/-- C5: No-op detection — a Pencil application whose entire in-bounds brush
footprint already holds the draw color reports no change: `applyTool`
returns `none`, so no updated grid is ever delivered and the caller keeps
the original grid value (the embedding is a pure function, so the input
grid is never modified). -/
theorem pencil_noop (size : Nat) (grid : List String) (ts : ToolState) (x y : Int)
    (hts : ts.activeTool = ToolType.pencil)
    (hall : ∀ p ∈ brushCoords ts.brushSize x y,
      (0 ≤ p.1 ∧ p.1 < (size : Int) ∧ 0 ≤ p.2 ∧ p.2 < (size : Int)) →
      grid.getD ((p.2 * (size : Int) + p.1).toNat) "" = ts.drawColor) :
    applyTool size grid ts x y = none := by
  rw [applyTool]
  by_cases hbound : x < 0 ∨ (size : Int) ≤ x ∨ y < 0 ∨ (size : Int) ≤ y
  · rw [if_pos hbound]
  · rw [if_neg hbound, hts,
      if_neg (by decide : ¬(ToolType.pencil = ToolType.magicEraser)),
      if_pos (rfl : ToolType.pencil = ToolType.pencil), applyBrush,
      foldl_wb_noop size ts.drawColor (brushCoords ts.brushSize x y) grid false hall]
    rfl

/-- Witness for C5: a Pencil stroke on a cell that already holds the draw
color returns no update. -/
theorem pencil_noop_witness :
    applyTool 1 ["#aa0000"] ⟨ToolType.pencil, 1, "#aa0000"⟩ 0 0 = none :=
  pencil_noop 1 ["#aa0000"] ⟨ToolType.pencil, 1, "#aa0000"⟩ 0 0 rfl (by decide)

/-- C4: Brush footprint and containment — with Pencil or Eraser and a brush
size of at least 1, an out-of-bounds anchor is a no-op, and for an in-bounds
anchor the grid in effect after the call (the updated grid when a change is
reported, the unchanged input grid otherwise) holds the written color on
exactly the cells of the brush square `x - half .. x - half + b - 1` (and
analogously in y) that lie inside `[0, size)²`, every other in-bounds cell
keeping its original value; no cell outside the bounds is ever written
because the characterization covers the whole grid. -/
theorem brush_footprint (size : Nat) (grid : List String) (ts : ToolState) (x y : Int)
    (hlen : grid.length = size * size)
    (htool : ts.activeTool = ToolType.pencil ∨ ts.activeTool = ToolType.eraser)
    (hb : 1 ≤ ts.brushSize) :
    ((x < 0 ∨ (size : Int) ≤ x ∨ y < 0 ∨ (size : Int) ≤ y) →
      applyTool size grid ts x y = none) ∧
    (0 ≤ x → x < (size : Int) → 0 ≤ y → y < (size : Int) →
      ∀ px py : Nat, px < size → py < size →
        ((x - (ts.brushSize / 2 : Nat) ≤ (px : Int) ∧
          (px : Int) ≤ x - (ts.brushSize / 2 : Nat) + (ts.brushSize : Int) - 1 ∧
          y - (ts.brushSize / 2 : Nat) ≤ (py : Int) ∧
          (py : Int) ≤ y - (ts.brushSize / 2 : Nat) + (ts.brushSize : Int) - 1) →
          ((applyTool size grid ts x y).getD grid).getD (py * size + px) "" =
            (if ts.activeTool = ToolType.pencil then ts.drawColor else "transparent")) ∧
        (¬ (x - (ts.brushSize / 2 : Nat) ≤ (px : Int) ∧
            (px : Int) ≤ x - (ts.brushSize / 2 : Nat) + (ts.brushSize : Int) - 1 ∧
            y - (ts.brushSize / 2 : Nat) ≤ (py : Int) ∧
            (py : Int) ≤ y - (ts.brushSize / 2 : Nat) + (ts.brushSize : Int) - 1) →
          ((applyTool size grid ts x y).getD grid).getD (py * size + px) "" =
            grid.getD (py * size + px) "")) := by
  have hme : ¬ ts.activeTool = ToolType.magicEraser := by
    rcases htool with h | h <;> simp [h]
  constructor
  · intro hout
    rw [applyTool, if_pos hout]
  · intro hx0 hx hy0 hy px py hpx hpy
    have hnb : ¬(x < 0 ∨ (size : Int) ≤ x ∨ y < 0 ∨ (size : Int) ≤ y) := by omega
    have happly : applyTool size grid ts x y =
        (if (applyBrush size grid
            (if ts.activeTool = ToolType.pencil then ts.drawColor else "transparent")
            ts.brushSize x y).2 then
          some (applyBrush size grid
            (if ts.activeTool = ToolType.pencil then ts.drawColor else "transparent")
            ts.brushSize x y).1
        else none) := by
      rw [applyTool, if_neg hnb, if_neg hme]
    set c := if ts.activeTool = ToolType.pencil then ts.drawColor else "transparent"
      with hcdef
    set res := applyBrush size grid c ts.brushSize x y with hres
    have hcast : (py : Int) * (size : Int) + (px : Int) = ((py * size + px : Nat) : Int) := by
      push_cast
      ring
    have hidx : ((py : Int) * (size : Int) + (px : Int)).toNat = py * size + px := by
      rw [hcast, Int.toNat_natCast]
    have hidxlt : py * size + px < size * size := by
      calc py * size + px < py * size + size := by omega
        _ = (py + 1) * size := by ring
        _ ≤ size * size := Nat.mul_le_mul_right size hpy
    constructor
    · intro hfoot
      have hmem : ((px : Int), (py : Int)) ∈ brushCoords ts.brushSize x y := by
        rw [mem_brushCoords]
        refine ⟨((py : Int) - (y - (ts.brushSize / 2 : Nat))).toNat,
          ((px : Int) - (x - (ts.brushSize / 2 : Nat))).toNat, ?_, ?_, ?_, ?_⟩
        · omega
        · omega
        · show (px : Int) = _
          omega
        · show (py : Int) = _
          omega
      have hin : 0 ≤ (px : Int) ∧ (px : Int) < (size : Int) ∧
          0 ≤ (py : Int) ∧ (py : Int) < (size : Int) :=
        ⟨Int.natCast_nonneg px, by exact_mod_cast hpx, Int.natCast_nonneg py,
          by exact_mod_cast hpy⟩
      have hwrit := foldl_wb_written size c ((px : Int), (py : Int)) hin
        (brushCoords ts.brushSize x y) grid false hmem
        (show (((px : Int), (py : Int)).2 * (size : Int) +
            ((px : Int), (py : Int)).1).toNat < grid.length by
          rw [hlen]
          calc (((px : Int), (py : Int)).2 * (size : Int) +
              ((px : Int), (py : Int)).1).toNat = py * size + px := hidx
            _ < size * size := hidxlt)
      by_cases hflag : res.2 = true
      · rw [happly, if_pos hflag]
        simp only [Option.getD_some]
        rw [hres, applyBrush, ← hidx]
        exact hwrit
      · rw [happly, if_neg hflag]
        simp only [Option.getD_none]
        have hflag2 : res.2 = false := by
          cases hflagv : res.2
          · rfl
          · exact absurd hflagv hflag
        have hfst : res.1 = grid :=
          foldl_wb_false size c (brushCoords ts.brushSize x y) grid hflag2
        have h2 : res.1.getD (py * size + px) "" = c := by
          rw [hres, applyBrush, ← hidx]
          exact hwrit
        rw [hfst] at h2
        exact h2
    · intro hfoot
      have hne : ∀ q ∈ brushCoords ts.brushSize x y,
          (0 ≤ q.1 ∧ q.1 < (size : Int) ∧ 0 ≤ q.2 ∧ q.2 < (size : Int)) →
          (q.2 * (size : Int) + q.1).toNat ≠ py * size + px := by
        intro q hq hqin heq
        rcases (mem_brushCoords ts.brushSize x y q).mp hq with ⟨dy, dx, hdy, hdx, hq1, hq2⟩
        have h0 : 0 ≤ q.2 * (size : Int) + q.1 := by
          have hm : 0 ≤ q.2 * (size : Int) :=
            mul_nonneg hqin.2.2.1 (Int.natCast_nonneg size)
          omega
        have hqnat : q.2 * (size : Int) + q.1 = (py : Int) * (size : Int) + (px : Int) := by
          have h1 : q.2 * (size : Int) + q.1 = ((py * size + px : Nat) : Int) := by
            rw [← heq, Int.toNat_of_nonneg h0]
          rw [h1, ← hcast]
        have hinj := rowMajor_inj size q.1 q.2 (px : Int) (py : Int) hqin.1 hqin.2.1
          (Int.natCast_nonneg px) (by exact_mod_cast hpx) hqnat
        apply hfoot
        refine ⟨?_, ?_, ?_, ?_⟩ <;> omega
      by_cases hflag : res.2 = true
      · rw [happly, if_pos hflag]
        simp only [Option.getD_some]
        rw [hres, applyBrush]
        exact foldl_wb_unchanged size c (brushCoords ts.brushSize x y)
          (py * size + px) hne grid false
      · rw [happly, if_neg hflag]
        simp only [Option.getD_none]

/-- Witness for C4: a 1-pixel Pencil stroke at the corner of a blank 2×2
grid paints exactly cell `(0, 0)`. -/
theorem brush_footprint_witness :
    ((applyTool 2 ["transparent", "transparent", "transparent", "transparent"]
        ⟨ToolType.pencil, 1, "#123456"⟩ 0 0).getD
      ["transparent", "transparent", "transparent", "transparent"]).getD 0 "" =
      "#123456" := by
  have h := brush_footprint 2 ["transparent", "transparent", "transparent", "transparent"]
    ⟨ToolType.pencil, 1, "#123456"⟩ 0 0 rfl (Or.inl rfl) (by decide)
  have h2 := (h.2 (by decide) (by decide) (by decide) (by decide) 0 0 (by decide)
    (by decide)).1 (by decide)
  simpa using h2

/-! ## Viewport scaler (auto-fit effect of `CanvasPreview`) -/

/-- Embeds the auto-fit effect of `CanvasPreview`:
`maxDim = Math.min(width, height) - 64; newScale = Math.max(1, Math.floor(maxDim / size))`.
Container dimensions are modelled as integers; `Int` division in Lean is
floor division for a positive divisor, matching `Math.floor` of the
JavaScript quotient, and this is proved against the rational floor below. -/
def computeScale (w h : Int) (size : Nat) : Int :=
  max 1 ((min w h - 64) / (size : Int))

/-- The viewport-scaler formula as the specification words it:
`max(1, floor((min(containerWidth, containerHeight) - margin) / resolution))`
with real (here rational) division and `margin = 64`. -/
def specScale (w h : Int) (size : Nat) : Int :=
  max 1 ⌊((min w h - 64 : Int) : ℚ) / ((size : Nat) : ℚ)⌋

/-- C7: Viewport scaler — the computed scale equals
`max(1, floor((min(w, h) - 64) / resolution))`, is always at least 1, and is
6 for a 500×500 container at resolution 64. -/
theorem computeScale_spec (w h : Int) (size : Nat) :
    computeScale w h size = specScale w h size ∧
    1 ≤ computeScale w h size ∧
    computeScale 500 500 64 = 6 := by
  refine ⟨?_, le_max_left 1 _, by decide⟩
  rw [computeScale, specScale, Rat.floor_intCast_div_natCast]

/-! ## Tool-state initialisation (`CanvasPreview` effects) -/

/-- The tool-state defaults of `CanvasPreview` at component mount:
`useState('none')`, `useState(1)` and `useState('#ffffff')`. -/
def initialToolState : ToolState :=
  { activeTool := ToolType.noTool, brushSize := 1, drawColor := "#ffffff" }

/-- Embeds the grid-arrival effect of `CanvasPreview`: when a grid loads,
the active tool is set to pencil and, when the grid contains a
non-transparent color, the draw color is set to the first such color; the
brush size is not touched by this effect. -/
def onGridLoad (grid : List String) (st : ToolState) : ToolState :=
  { st with
    activeTool := ToolType.pencil
    drawColor :=
      match grid.find? (fun c => decide (c ≠ "transparent")) with
      | some c => c
      | none => st.drawColor }

/-- Counterexample to C8 as stated: a grid arrival does not reset the brush
size to 1 — with a session brush size of 3 the state after the arrival still
has brush size 3. -/
theorem onGridLoad_keeps_brushSize :
    (onGridLoad ["#ff0000"] ⟨ToolType.eraser, 3, "#ffffff"⟩).brushSize ≠ 1 := by
  decide

/-- C8 (amended): when a new grid arrives the active tool is set to Pencil
and the draw color to the first non-transparent color found in the grid when
one exists (otherwise the draw color keeps its previous value); the brush
size is not re-initialized — it persists from the previous state and is 1
only as the session-start default. -/
theorem onGridLoad_defaults (grid : List String) (st : ToolState) :
    (onGridLoad grid st).activeTool = ToolType.pencil ∧
    (onGridLoad grid st).brushSize = st.brushSize ∧
    (∀ c, grid.find? (fun c => decide (c ≠ "transparent")) = some c →
      (onGridLoad grid st).drawColor = c) ∧
    (grid.find? (fun c => decide (c ≠ "transparent")) = none →
      (onGridLoad grid st).drawColor = st.drawColor) ∧
    initialToolState.brushSize = 1 := by
  refine ⟨rfl, rfl, ?_, ?_, rfl⟩
  · intro c hc
    show (match grid.find? (fun c => decide (c ≠ "transparent")) with
          | some c => c
          | none => st.drawColor) = c
    rw [hc]
  · intro hn
    show (match grid.find? (fun c => decide (c ≠ "transparent")) with
          | some c => c
          | none => st.drawColor) = st.drawColor
    rw [hn]

/-- Witness for the amended C8 at a concrete grid and session state. -/
theorem onGridLoad_defaults_witness :
    (onGridLoad ["transparent", "#22cc44"] ⟨ToolType.eraser, 4, "#ffffff"⟩).activeTool =
        ToolType.pencil ∧
    (onGridLoad ["transparent", "#22cc44"] ⟨ToolType.eraser, 4, "#ffffff"⟩).brushSize = 4 ∧
    (onGridLoad ["transparent", "#22cc44"] ⟨ToolType.eraser, 4, "#ffffff"⟩).drawColor =
        "#22cc44" := by
  have h := onGridLoad_defaults ["transparent", "#22cc44"] ⟨ToolType.eraser, 4, "#ffffff"⟩
  exact ⟨h.1, h.2.1, h.2.2.1 "#22cc44" (by decide)⟩

end PixelArt
